import Mathlib

/-!
Verification of the Store Finder product-search core (src/main.py).

The embedding models the stored documents and the search pipeline of
`search_product`: the MongoDB `$elemMatch`/`$regex` pre-filter, the
per-store coordinate extraction, the haversine distance and radius
filter, the in-memory inventory matcher, best-offer (cheapest) selection,
rounding of the reported distance, and the final stable sort by
(distance_km, price).  Numeric document values are modelled as exact
rationals (Python floats modelled by exact arithmetic); possibly missing
or non-numeric document fields are modelled with `Option`.  The
trigonometric distance function itself is modelled over the reals.
-/

/-- An inventory entry as stored in a store document: the fields
`product_title`, `quantity` and `price` may each be absent (`none`). -/
structure Item where
  product_title : Option String
  quantity : Option Int
  price : Option ℚ
deriving DecidableEq

/-- The `location.coordinates` field of a store document.
`missing` models the absence of the `location` or `coordinates` key
(the source's chained `.get` then yields the default `[None, None]`);
`null` models an explicit JSON null value (the source's `coords is None`
branch); `list cs` models a stored array whose components are numeric
(`some q`) or non-numeric (`none`). -/
inductive CoordsField where
  | missing
  | null
  | list (cs : List (Option ℚ))
deriving DecidableEq

/-- A store document as returned by the repository scan. -/
structure Store where
  sid : String
  name : String
  address : String
  coords : CoordsField
  inventory : List Item
deriving DecidableEq

/-- The `ProductSearchResponse` row emitted per qualifying store.
`product_title` carries the raw `best.get("product_title")` value
(which is `None` when the field is absent). -/
structure SearchResult where
  store_id : String
  store_name : String
  address : String
  distance_km : ℚ
  product_title : Option String
  price : ℚ
  quantity : Int
deriving DecidableEq

/-- The failure mode of the scan: a `TypeError` raised when a coordinate
component that is not a number reaches `radians` inside `haversine`. -/
inductive SearchError where
  | typeError
deriving DecidableEq

deriving instance DecidableEq for Except

/-- The empty string (named, used as the `.get(..., "")` default). -/
def emptyStr : String := ""

/-- The lowercased character sequence of a string, modelling Python's
`str.lower()` (each character mapped to its lower-case form). -/
def lowerChars (s : String) : List Char := s.toList.map Char.toLower

/-- Round a rational to the nearest integer, ties to even: the rounding
mode of Python's builtin `round` (modelled in exact arithmetic). -/
def roundHalfEven (q : ℚ) : Int :=
  if q - ⌊q⌋ < 1/2 then ⌊q⌋
  else if 1/2 < q - ⌊q⌋ then ⌊q⌋ + 1
  else if ⌊q⌋ % 2 = 0 then ⌊q⌋ else ⌊q⌋ + 1

/-- Python's `round(x, 2)`: round to 2 decimal places, ties to even. -/
def round2 (q : ℚ) : ℚ := (roundHalfEven (q * 100) : ℚ) / 100

/-- Python's substring containment `needle in hay` on character lists. -/
def containsSub (needle : List Char) : List Char → Bool
  | [] => needle.isEmpty
  | c :: cs => needle.isPrefixOf (c :: cs) || containsSub needle cs

/-- The in-memory match predicate of the comprehension on line 150 of
src/main.py: `q.lower() in str(item.get("product_title", "")).lower()
and item.get("quantity", 0) > 0`. -/
def memMatch (q : String) (it : Item) : Bool :=
  containsSub (lowerChars q) (lowerChars (it.product_title.getD emptyStr))
    && decide (0 < it.quantity.getD 0)

/-- The matched inventory entries of a store for a query, in original
inventory order (the list comprehension on line 150 of src/main.py). -/
def matchesFor (q : String) (inv : List Item) : List Item :=
  inv.filter (memMatch q)

/-- Whether a regex atom matches one character: `.` is a wildcard,
every other atom character matches itself. -/
def matchChar (a c : Char) : Bool := a == '.' || a == c

/-- Fuel-indexed regex matching engine, modelling MongoDB `$regex`
anchored at the current position, for the pattern fragment made of
literal characters, the wildcard `.` and the quantifiers `*`, `+`, `?`
(characters outside this fragment are treated as literals).  The state
`some a` means an outstanding `a*` repetition is being consumed; `none`
means the remaining pattern is matched from its head. -/
def reRun : Nat → Option Char → List Char → List Char → Bool
  | 0, _, _, _ => false
  | n + 1, some a, ps, s =>
    reRun n none ps s ||
      (match s with
       | [] => false
       | c :: cs => matchChar a c && reRun n (some a) ps cs)
  | n + 1, none, p, s =>
    match p, s with
    | [], _ => true
    | a :: '*' :: ps, s1 => reRun n (some a) ps s1
    | a :: '+' :: ps, c :: cs => matchChar a c && reRun n (some a) ps cs
    | _ :: '+' :: _, [] => false
    | a :: '?' :: ps, s1 =>
      reRun n none ps s1 ||
        (match s1 with
         | [] => false
         | c :: cs => matchChar a c && reRun n none ps cs)
    | a :: ps, c :: cs => matchChar a c && reRun n none ps cs
    | _ :: _, [] => false

/-- Match a regex pattern at the start of a string, with enough fuel for
the run to complete. -/
def reMatchHere (p s : List Char) : Bool :=
  reRun (2 * (p.length + s.length) + 2) none p s

/-- Unanchored regex search: try to match at every position. -/
def reSearchAux (p : List Char) : List Char → Bool
  | [] => reMatchHere p []
  | c :: cs => reMatchHere p (c :: cs) || reSearchAux p cs

/-- Case-insensitive unanchored regex search, modelling the MongoDB
`$regex` filter with the case-insensitive option `i` (case folding
modelled by lowercasing both pattern and subject). -/
def reSearchCI (pat str : String) : Bool :=
  reSearchAux (lowerChars pat) (lowerChars str)

/-- The regex metacharacters of the PCRE syntax used by `$regex`. -/
def regexSpecials : List Char :=
  ['.', '*', '+', '?', '(', ')', '[', ']', '\x7b', '\x7d', '\\', '|', '^', '$']

/-- The database-side `$elemMatch` predicate on one inventory entry
(lines 132-139 of src/main.py): the regex must match an existing string
`product_title` field, and `quantity` must be greater than 0. -/
def dbItemMatch (q : String) (it : Item) : Bool :=
  (match it.product_title with
   | none => false
   | some t => reSearchCI q t)
    && decide (0 < it.quantity.getD 0)

/-- The database-level pre-filter on a store: some inventory entry
satisfies the `$elemMatch` predicate. -/
def dbStoreMatch (q : String) (s : Store) : Bool :=
  s.inventory.any (dbItemMatch q)

/-- The sort key `x.get("price", 0)` of the best-offer selection. -/
def keyPrice (it : Item) : ℚ := it.price.getD 0

/-- Insert an element into a sorted list, before the first element it
compares `le` to (so an element inserted from the left of the original
list stays before later tied elements: stability). -/
def insertSorted (le : α → α → Bool) (a : α) : List α → List α
  | [] => [a]
  | b :: bs => if le a b then a :: b :: bs else b :: insertSorted le a bs

/-- Stable ascending sort, modelling Python's `sorted` / `list.sort`
(which are stable; a stable sort's output is uniquely determined, so
this insertion sort computes exactly the source's result). -/
def sortedBy (le : α → α → Bool) (l : List α) : List α :=
  l.foldr (insertSorted le) []

/-- Best-offer selection (line 154 of src/main.py):
`sorted(matches, key=lambda x: x.get("price", 0))[0]`, i.e. the head of
the stable sort by price; `none` when there are no matches. -/
def bestOffer (its : List Item) : Option Item :=
  (sortedBy (fun a b => keyPrice a ≤ keyPrice b) its).head?

/-- The coordinate extraction of line 143 of src/main.py: the chained
`.get` calls on the location field with an empty-dict and a
`[None, None]` default.  A missing key yields the default `[None, None]`;
an explicit null yields `none` (the `coords is None` skip); a stored
array is returned as-is. -/
def getCoords (s : Store) : Option (List (Option ℚ)) :=
  match s.coords with
  | CoordsField.missing => some [none, none]
  | CoordsField.null => none
  | CoordsField.list cs => some cs

/-- Whether a store's coordinates are a stored array of exactly two
numeric components. -/
def isWellLocated (s : Store) : Bool :=
  match s.coords with
  | CoordsField.list [some _, some _] => true
  | _ => false

/-- The per-store body of the scan loop (lines 142-163 of src/main.py),
parametrised by the distance function (the haversine computation, a pure
function of the four coordinates).  Returns `ok none` when the store is
skipped, `ok (some r)` when a result row is emitted, and `error` when a
non-numeric coordinate component reaches `radians` inside `haversine`
(a `TypeError`, aborting the whole request). -/
def processStore (dist : ℚ → ℚ → ℚ → ℚ → ℚ) (q : String) (lat lng radius : ℚ)
    (s : Store) : Except SearchError (Option SearchResult) :=
  match getCoords s with
  | none => Except.ok none
  | some cs =>
    match cs with
    | [olng, olat] =>
      match olng, olat with
      | some slng, some slat =>
        if dist lng lat slng slat ≤ radius then
          match bestOffer (matchesFor q s.inventory) with
          | none => Except.ok none
          | some best =>
            Except.ok (some
              { store_id := s.sid
                store_name := s.name
                address := s.address
                distance_km := round2 (dist lng lat slng slat)
                product_title := best.product_title
                price := best.price.getD 0
                quantity := best.quantity.getD 0 })
        else Except.ok none
      | _, _ => Except.error SearchError.typeError
    | _ => Except.ok none

/-- The scan loop over the stores delivered by the cursor: collects the
emitted rows in encounter order, propagating a raised `TypeError`. -/
def scanStores (dist : ℚ → ℚ → ℚ → ℚ → ℚ) (q : String) (lat lng radius : ℚ) :
    List Store → Except SearchError (List SearchResult)
  | [] => Except.ok []
  | s :: ss =>
    match processStore dist q lat lng radius s with
    | Except.error e => Except.error e
    | Except.ok none => scanStores dist q lat lng radius ss
    | Except.ok (some r) =>
      match scanStores dist q lat lng radius ss with
      | Except.error e => Except.error e
      | Except.ok rs => Except.ok (r :: rs)

/-- The final ordering key of line 166 of src/main.py:
`(r.distance_km, r.price)` compared lexicographically. -/
def resLE (a b : SearchResult) : Bool :=
  decide (a.distance_km < b.distance_km
    ∨ (a.distance_km = b.distance_km ∧ a.price ≤ b.price))

/-- The full `search_product` operation (lines 120-167 of src/main.py):
the database pre-filter selects the stores the cursor yields, the scan
loop processes them, and the collected rows are stably sorted by
(distance_km, price). -/
def search_product (dist : ℚ → ℚ → ℚ → ℚ → ℚ) (q : String) (lat lng radius : ℚ)
    (stores : List Store) : Except SearchError (List SearchResult) :=
  match scanStores dist q lat lng radius (stores.filter (dbStoreMatch q)) with
  | Except.error e => Except.error e
  | Except.ok rs => Except.ok (sortedBy resLE rs)

/-- The search pipeline without the database pre-filter: the
authoritative in-memory semantics of spec §4.2/§4.3 applied to every
scanned store (the reference side of the two-layer refinement claim). -/
def searchNoPrefilter (dist : ℚ → ℚ → ℚ → ℚ → ℚ) (q : String) (lat lng radius : ℚ)
    (stores : List Store) : Except SearchError (List SearchResult) :=
  match scanStores dist q lat lng radius stores with
  | Except.error e => Except.error e
  | Except.ok rs => Except.ok (sortedBy resLE rs)

/-- Degrees to radians, modelling `math.radians`. -/
noncomputable def radiansOf (x : ℝ) : ℝ := x * (Real.pi / 180)

/-- The intermediate value `a` of the haversine formula (line 49 of
src/main.py), over the reals. -/
noncomputable def haversineA (lon1 lat1 lon2 lat2 : ℝ) : ℝ :=
  Real.sin ((radiansOf lat2 - radiansOf lat1) / 2) ^ 2 +
    Real.cos (radiansOf lat1) * Real.cos (radiansOf lat2) *
      Real.sin ((radiansOf lon2 - radiansOf lon1) / 2) ^ 2

/-- The haversine great-circle distance of lines 41-52 of src/main.py:
`km = 6367 * (2 * asin(sqrt(a)))`, over the reals. -/
noncomputable def haversine (lon1 lat1 lon2 lat2 : ℝ) : ℝ :=
  6367 * (2 * Real.arcsin (Real.sqrt (haversineA lon1 lat1 lon2 lat2)))

/-! ### Properties of the stable sort -/

theorem sortedBy_cons (le : α → α → Bool) (a : α) (l : List α) :
    sortedBy le (a :: l) = insertSorted le a (sortedBy le l) := rfl

theorem length_insertSorted (le : α → α → Bool) (a : α) (l : List α) :
    (insertSorted le a l).length = l.length + 1 := by
  induction l with
  | nil => rfl
  | cons b bs ih =>
    simp only [insertSorted]
    split <;> simp [ih]

theorem length_sortedBy (le : α → α → Bool) (l : List α) :
    (sortedBy le l).length = l.length := by
  induction l with
  | nil => rfl
  | cons a as ih =>
    rw [sortedBy_cons, length_insertSorted, ih, List.length_cons]

theorem perm_insertSorted (le : α → α → Bool) (a : α) (l : List α) :
    List.Perm (insertSorted le a l) (a :: l) := by
  induction l with
  | nil => exact List.Perm.refl _
  | cons b bs ih =>
    simp only [insertSorted]
    split
    · exact List.Perm.refl _
    · exact (ih.cons b).trans (List.Perm.swap a b bs)

theorem perm_sortedBy (le : α → α → Bool) (l : List α) :
    List.Perm (sortedBy le l) l := by
  induction l with
  | nil => exact List.Perm.refl _
  | cons a as ih =>
    rw [sortedBy_cons]
    exact (perm_insertSorted le a (sortedBy le as)).trans (ih.cons a)

theorem mem_insertSorted (le : α → α → Bool) (a x : α) (l : List α) :
    x ∈ insertSorted le a l ↔ x = a ∨ x ∈ l :=
  (perm_insertSorted le a l).mem_iff.trans List.mem_cons

theorem pairwise_insertSorted (le : α → α → Bool)
    (total : ∀ a b, le a b = true ∨ le b a = true)
    (trans : ∀ a b c, le a b = true → le b c = true → le a c = true)
    (a : α) (l : List α) (h : l.Pairwise (fun x y => le x y = true)) :
    (insertSorted le a l).Pairwise (fun x y => le x y = true) := by
  induction l with
  | nil => simp [insertSorted]
  | cons b bs ih =>
    rcases h with - | ⟨hb, hbs⟩
    simp only [insertSorted]
    by_cases hab : le a b = true
    · simp only [hab, if_true]
      refine List.Pairwise.cons ?_ (List.Pairwise.cons hb hbs)
      intro y hy
      rcases List.mem_cons.mp hy with rfl | hy'
      · exact hab
      · exact trans a b y hab (hb y hy')
    · have hba : le b a = true := (total a b).resolve_left hab
      simp only [hab, if_false]
      refine List.Pairwise.cons ?_ (ih hbs)
      intro y hy
      rcases (mem_insertSorted le a y bs).mp hy with rfl | hy'
      · exact hba
      · exact hb y hy'

theorem pairwise_sortedBy (le : α → α → Bool)
    (total : ∀ a b, le a b = true ∨ le b a = true)
    (trans : ∀ a b c, le a b = true → le b c = true → le a c = true)
    (l : List α) :
    (sortedBy le l).Pairwise (fun x y => le x y = true) := by
  induction l with
  | nil => simp [sortedBy]
  | cons a as ih =>
    rw [sortedBy_cons]
    exact pairwise_insertSorted le total trans a (sortedBy le as) ih

theorem find?_congr_mem {p q : α → Bool} (l : List α)
    (h : ∀ x ∈ l, p x = q x) : l.find? p = l.find? q := by
  induction l with
  | nil => rfl
  | cons a as ih =>
    have ha := h a (List.mem_cons_self a as)
    simp only [List.find?]
    rw [ha]
    cases q a
    · exact ih fun x hx => h x (List.mem_cons_of_mem a hx)
    · rfl

theorem head?_sortedBy_min (le : α → α → Bool)
    (total : ∀ a b, le a b = true ∨ le b a = true)
    (trans : ∀ a b c, le a b = true → le b c = true → le a c = true)
    (l : List α) :
    (sortedBy le l).head? = l.find? (fun x => l.all (fun y => le x y)) := by
  induction l with
  | nil => rfl
  | cons a as ih =>
    rw [sortedBy_cons]
    cases hs : sortedBy le as with
    | nil =>
      have has : as = [] := by
        have := length_sortedBy le as
        rw [hs] at this
        exact List.length_eq_zero.mp this.symm
      subst has
      simp only [sortedBy, List.foldr, insertSorted, List.head?, List.find?,
        List.all_cons, List.all_nil, Bool.and_true]
      rcases total a a with h | h <;> rw [h]
    | cons m rest =>
      rw [hs] at ih
      have hfind : as.find? (fun x => as.all (fun y => le x y)) = some m := by
        rw [← ih]
        rfl
      have hm_mem : m ∈ as := List.mem_of_find?_eq_some hfind
      have hm_pred : as.all (fun y => le m y) = true := by
        simpa using List.find?_some hfind
      have hm_min : ∀ y ∈ as, le m y = true := by
        intro y hy
        exact List.all_eq_true.mp hm_pred y hy
      by_cases ham : le a m = true
      · have hmin_a : ∀ y ∈ as, le a y = true := fun y hy => trans a m y ham (hm_min y hy)
        have hpred_a : (a :: as).all (fun y => le a y) = true := by
          rw [List.all_cons]
          rcases total a a with h | h
          · rw [h]
            simpa using List.all_eq_true.mpr hmin_a
          · rw [h]
            simpa using List.all_eq_true.mpr hmin_a
        rw [insertSorted]
        rw [if_pos ham]
        simp only [List.head?, List.find?]
        rw [hpred_a]
      · have hma : le m a = true := (total a m).resolve_left ham
        rw [insertSorted, if_neg ham]
        have hpred_a : (a :: as).all (fun y => le a y) = false := by
          rw [List.all_cons]
          apply Bool.and_eq_false_iff.mpr
          right
          apply Bool.not_eq_true _ |>.mp
          intro hall
          exact ham (List.all_eq_true.mp hall m hm_mem)
        simp only [List.head?, List.find?]
        rw [hpred_a]
        have hcongr : as.find? (fun x => (a :: as).all (fun y => le x y)) =
            as.find? (fun x => as.all (fun y => le x y)) := by
          apply find?_congr_mem
          intro x hx
          rw [List.all_cons]
          by_cases hpx : as.all (fun y => le x y) = true
          · have hxa : le x a = true := trans x m a (List.all_eq_true.mp hpx m hm_mem) hma
            rw [hxa, hpx]
            rfl
          · have : as.all (fun y => le x y) = false := Bool.not_eq_true _ |>.mp hpx
            rw [this]
            simp
        rw [hcongr, ← ih]
        rfl

theorem sublist_insertSorted (le : α → α → Bool) (a : α) (l : List α) :
    l.Sublist (insertSorted le a l) := by
  induction l with
  | nil => simp [insertSorted]
  | cons b bs ih =>
    simp only [insertSorted]
    split
    · exact List.Sublist.cons a (List.Sublist.refl _)
    · exact List.Sublist.cons₂ b ih

theorem pair_sublist_insertSorted (le : α → α → Bool) {a b : α}
    (hab : le a b = true) {l : List α} (hb : b ∈ l) :
    [a, b].Sublist (insertSorted le a l) := by
  induction l with
  | nil => cases hb
  | cons c cs ih =>
    simp only [insertSorted]
    by_cases hac : le a c = true
    · rw [if_pos hac]
      exact List.Sublist.cons₂ a (List.singleton_sublist.mpr hb)
    · rw [if_neg hac]
      rcases List.mem_cons.mp hb with rfl | hb'
      · exact absurd hab hac
      · exact List.Sublist.cons c (ih hb')

theorem pair_sublist_sortedBy (le : α → α → Bool) {a b : α} {l : List α}
    (h : [a, b].Sublist l) (hab : le a b = true) :
    [a, b].Sublist (sortedBy le l) := by
  induction l with
  | nil => cases h
  | cons x xs ih =>
    rw [sortedBy_cons]
    cases h with
    | cons _ h' => exact (ih h').trans (sublist_insertSorted le x (sortedBy le xs))
    | cons₂ _ h' =>
      have hb : b ∈ sortedBy le xs :=
        (perm_sortedBy le xs).mem_iff.mpr (List.singleton_sublist.mp h')
      exact pair_sublist_insertSorted le hab hb

/-! ### Properties of best-offer selection -/

theorem bestOffer_eq_none_iff (its : List Item) : bestOffer its = none ↔ its = [] := by
  unfold bestOffer
  rw [List.head?_eq_none_iff]
  constructor
  · intro h
    have := length_sortedBy (fun a b => keyPrice a ≤ keyPrice b) its
    rw [h] at this
    exact List.length_eq_zero.mp this.symm
  · intro h
    subst h
    rfl

/-! ### Substring containment -/

theorem containsSub_iff (n : List Char) (h : List Char) :
    containsSub n h = true ↔ n <:+: h := by
  induction h with
  | nil =>
    simp [containsSub, List.isEmpty_iff, List.infix_nil]
  | cons c cs ih =>
    simp [containsSub, List.infix_cons_iff, ih, List.isPrefixOf_iff_prefix]

/-! ### Rounding -/

theorem roundHalfEven_le (q : ℚ) : (roundHalfEven q : ℚ) ≤ q + 1/2 := by
  have hf : (⌊q⌋ : ℚ) ≤ q := Int.floor_le q
  unfold roundHalfEven
  split
  · linarith
  · split
    · push_cast
      linarith
    · split
      · linarith
      · rename_i h1 h2 _
        have : q - ⌊q⌋ = 1/2 := le_antisymm (not_lt.mp h2) (not_lt.mp h1)
        push_cast
        linarith

theorem round2_le (q : ℚ) : round2 q ≤ q + 1/200 := by
  unfold round2
  have h := roundHalfEven_le (q * 100)
  linarith

/-! ### Regex search on literal patterns -/

/-- Whether a character is outside the regex metacharacter set. -/
def notSpecial (c : Char) : Bool := !(regexSpecials.contains c)

theorem notSpecial_facts (c : Char) (h : notSpecial c = true) :
    c ≠ '.' ∧ c ≠ '*' ∧ c ≠ '+' ∧ c ≠ '?' := by
  simp [notSpecial, regexSpecials] at h
  exact ⟨h.1, h.2.1, h.2.2.1, h.2.2.2.1⟩

theorem matchChar_of_ne (a c : Char) (ha : a ≠ '.') : matchChar a c = (a == c) := by
  unfold matchChar
  rw [show (a == '.') = false from beq_eq_false_iff_ne.mpr ha, Bool.false_or]

theorem reRun_literal (n : Nat) (p s : List Char)
    (hp : p.all notSpecial = true) (hn : p.length + s.length < n) :
    reRun n none p s = p.isPrefixOf s := by
  induction n generalizing p s with
  | zero => omega
  | succ n ih =>
    cases p with
    | nil => cases s <;> rfl
    | cons a ps =>
      rw [List.all_cons, Bool.and_eq_true] at hp
      obtain ⟨ha, hps⟩ := hp
      have ha' := notSpecial_facts a ha
      cases ps with
      | nil =>
        cases s with
        | nil => rfl
        | cons c cs =>
          have hstep : reRun (n + 1) none [a] (c :: cs) =
              (matchChar a c && reRun n none [] cs) := rfl
          rw [hstep, matchChar_of_ne a c ha'.1,
            ih [] cs rfl (by simp at hn ⊢; omega)]
          rfl
      | cons b ps' =>
        rw [List.all_cons, Bool.and_eq_true] at hps
        obtain ⟨hb, hps'⟩ := hps
        have hb' := notSpecial_facts b hb
        cases s with
        | nil =>
          simp only [reRun]
          split
          · rename_i heq
            exact List.noConfusion heq
          · rename_i heq
            injection heq with h1 h2
            injection h2 with h3 h4
            exact absurd h3 hb'.2.1
          · rename_i heqp heqs
            exact List.noConfusion heqs
          · rfl
          · rename_i heq
            injection heq with h1 h2
            injection h2 with h3 h4
            exact absurd h3 hb'.2.2.2
          · rename_i heqp heqs
            exact List.noConfusion heqs
          · rfl
        | cons c cs =>
          simp only [reRun]
          split
          · rename_i heq
            exact List.noConfusion heq
          · rename_i heq
            injection heq with h1 h2
            injection h2 with h3 h4
            exact absurd h3 hb'.2.1
          · rename_i heqp heqs
            injection heqp with h1 h2
            injection h2 with h3 h4
            exact absurd h3 hb'.2.2.1
          · rename_i heqp heqs
            exact List.noConfusion heqs
          · rename_i heq
            injection heq with h1 h2
            injection h2 with h3 h4
            exact absurd h3 hb'.2.2.2
          · rename_i a1 ps1 c1 cs1 heqp heqs
            rw [List.cons.injEq] at heqp heqs
            obtain ⟨rfl, hp1⟩ := heqp
            obtain ⟨rfl, rfl⟩ := heqs
            rw [← hp1, matchChar_of_ne a c ha'.1,
              ih (b :: ps') cs (by rw [List.all_cons, Bool.and_eq_true]; exact ⟨hb, hps'⟩)
                (by simp at hn ⊢; omega)]
            rfl
          · rename_i heqp heqs
            exact List.noConfusion heqs

theorem reMatchHere_literal (p s : List Char) (hp : p.all notSpecial = true) :
    reMatchHere p s = p.isPrefixOf s :=
  reRun_literal _ p s hp (by omega)

theorem reSearchAux_literal (p : List Char) (s : List Char)
    (hp : p.all notSpecial = true) :
    reSearchAux p s = containsSub p s := by
  induction s with
  | nil =>
    rw [show reSearchAux p [] = reMatchHere p [] from rfl,
      reMatchHere_literal p [] hp]
    cases p <;> rfl
  | cons c cs ih =>
    rw [show reSearchAux p (c :: cs) = (reMatchHere p (c :: cs) || reSearchAux p cs) from rfl,
      reMatchHere_literal p (c :: cs) hp, ih]
    rfl

theorem memMatch_imp_dbItemMatch (q : String) (it : Item)
    (hq : lowerChars q ≠ [])
    (hsafe : (lowerChars q).all notSpecial = true)
    (h : memMatch q it = true) : dbItemMatch q it = true := by
  unfold memMatch at h
  rw [Bool.and_eq_true] at h
  obtain ⟨h1, h2⟩ := h
  unfold dbItemMatch
  rw [Bool.and_eq_true]
  refine ⟨?_, h2⟩
  cases ht : it.product_title with
  | none =>
    exfalso
    rw [ht] at h1
    have hd : (Option.getD (none : Option String) emptyStr) = emptyStr := rfl
    rw [hd] at h1
    have hnil : lowerChars emptyStr = [] := rfl
    rw [hnil] at h1
    cases hq' : lowerChars q with
    | nil => exact hq hq'
    | cons x xs =>
      rw [hq'] at h1
      exact Bool.noConfusion (show false = true from (List.isEmpty_cons ▸ h1 : _))
  | some t =>
    rw [ht] at h1
    show reSearchAux (lowerChars q) (lowerChars t) = true
    rw [reSearchAux_literal _ _ hsafe]
    exact h1

/-! ### Relating the database pre-filter to the in-memory check -/

theorem isWellLocated_shape (s : Store) (hw : isWellLocated s = true) :
    ∃ a b, s.coords = CoordsField.list [some a, some b] := by
  unfold isWellLocated at hw
  split at hw
  · rename_i a b heq
    exact ⟨a, b, heq⟩
  · exact Bool.noConfusion hw

theorem processStore_skip (dist : ℚ → ℚ → ℚ → ℚ → ℚ) (q : String) (lat lng radius : ℚ)
    (s : Store) (hw : isWellLocated s = true)
    (hq : lowerChars q ≠ []) (hsafe : (lowerChars q).all notSpecial = true)
    (hdb : dbStoreMatch q s = false) :
    processStore dist q lat lng radius s = Except.ok none := by
  obtain ⟨A, B, hc⟩ := isWellLocated_shape s hw
  have hm : matchesFor q s.inventory = [] := by
    unfold matchesFor
    rw [List.filter_eq_nil_iff]
    intro it hit hmm
    have hdbit : dbItemMatch q it = true := memMatch_imp_dbItemMatch q it hq hsafe hmm
    unfold dbStoreMatch at hdb
    rw [List.any_eq_false] at hdb
    exact hdb it hit hdbit
  unfold processStore
  simp only [getCoords, hc]
  rw [hm]
  split <;> rfl

theorem scanStores_filter (dist : ℚ → ℚ → ℚ → ℚ → ℚ) (q : String) (lat lng radius : ℚ)
    (stores : List Store)
    (hw : ∀ s ∈ stores, isWellLocated s = true)
    (hq : lowerChars q ≠ []) (hsafe : (lowerChars q).all notSpecial = true) :
    scanStores dist q lat lng radius (stores.filter (dbStoreMatch q)) =
      scanStores dist q lat lng radius stores := by
  induction stores with
  | nil => rfl
  | cons s ss ih =>
    have hws : isWellLocated s = true := hw s (List.mem_cons_self s ss)
    have hw' : ∀ x ∈ ss, isWellLocated x = true :=
      fun x hx => hw x (List.mem_cons_of_mem s hx)
    rw [List.filter_cons]
    by_cases hdb : dbStoreMatch q s = true
    · rw [if_pos hdb]
      simp only [scanStores]
      rw [ih hw']
    · have hfalse : dbStoreMatch q s = false := Bool.not_eq_true _ |>.mp hdb
      rw [if_neg (by simp [hfalse])]
      rw [ih hw']
      conv_rhs => rw [show scanStores dist q lat lng radius (s :: ss) =
        (match processStore dist q lat lng radius s with
         | Except.error e => Except.error e
         | Except.ok none => scanStores dist q lat lng radius ss
         | Except.ok (some r) =>
           match scanStores dist q lat lng radius ss with
           | Except.error e => Except.error e
           | Except.ok rs => Except.ok (r :: rs)) from rfl]
      rw [processStore_skip dist q lat lng radius s hws hq hsafe hfalse]

/-! ### Inversion of the per-store step -/

theorem processStore_ok_some (dist : ℚ → ℚ → ℚ → ℚ → ℚ) (q : String)
    (lat lng radius : ℚ) (s : Store) (r : SearchResult)
    (h : processStore dist q lat lng radius s = Except.ok (some r)) :
    ∃ slng slat best,
      getCoords s = some [some slng, some slat] ∧
      dist lng lat slng slat ≤ radius ∧
      bestOffer (matchesFor q s.inventory) = some best ∧
      r = { store_id := s.sid, store_name := s.name, address := s.address,
            distance_km := round2 (dist lng lat slng slat),
            product_title := best.product_title,
            price := best.price.getD 0,
            quantity := best.quantity.getD 0 } := by
  unfold processStore at h
  split at h
  · exact absurd h (by simp)
  · rename_i cs heq
    split at h
    · rename_i olng olat hcs2
      split at h
      · rename_i slng slat
        split at h
        · rename_i hle
          split at h
          · exact absurd h (by simp)
          · rename_i best hbest
            refine ⟨slng, slat, best, ?_, hle, hbest, ?_⟩
            · exact heq
            · have := Except.ok.inj h
              exact (Option.some.inj this).symm
        · exact absurd h (by simp)
      · exact absurd h (by simp)
    · exact absurd h (by simp)

/-! ### Properties of the haversine distance -/

theorem haversineA_self (lon lat : ℝ) : haversineA lon lat lon lat = 0 := by
  unfold haversineA
  rw [sub_self, sub_self]
  norm_num

theorem haversineA_symm (lon1 lat1 lon2 lat2 : ℝ) :
    haversineA lon2 lat2 lon1 lat1 = haversineA lon1 lat1 lon2 lat2 := by
  unfold haversineA
  have hsq : ∀ x y : ℝ, Real.sin ((x - y) / 2) ^ 2 = Real.sin ((y - x) / 2) ^ 2 := by
    intro x y
    rw [show (x - y) / 2 = -((y - x) / 2) by ring, Real.sin_neg, neg_sq]
  rw [hsq (radiansOf lat1) (radiansOf lat2), hsq (radiansOf lon1) (radiansOf lon2),
    mul_comm (Real.cos (radiansOf lat2)) (Real.cos (radiansOf lat1))]

theorem cos_radiansOf_nonneg (lat : ℝ) (hl : -90 ≤ lat) (hu : lat ≤ 90) :
    0 ≤ Real.cos (radiansOf lat) := by
  have hpi := Real.pi_pos
  apply Real.cos_nonneg_of_mem_Icc
  unfold radiansOf
  constructor
  · nlinarith
  · nlinarith

theorem haversineA_nonneg (lon1 lat1 lon2 lat2 : ℝ)
    (h1l : -90 ≤ lat1) (h1u : lat1 ≤ 90) (h2l : -90 ≤ lat2) (h2u : lat2 ≤ 90) :
    0 ≤ haversineA lon1 lat1 lon2 lat2 := by
  have hc1 := cos_radiansOf_nonneg lat1 h1l h1u
  have hc2 := cos_radiansOf_nonneg lat2 h2l h2u
  unfold haversineA
  have h1 : (0:ℝ) ≤ Real.sin ((radiansOf lat2 - radiansOf lat1) / 2) ^ 2 := sq_nonneg _
  have h2 : (0:ℝ) ≤ Real.sin ((radiansOf lon2 - radiansOf lon1) / 2) ^ 2 := sq_nonneg _
  have h3 : (0:ℝ) ≤ Real.cos (radiansOf lat1) * Real.cos (radiansOf lat2) *
      Real.sin ((radiansOf lon2 - radiansOf lon1) / 2) ^ 2 :=
    mul_nonneg (mul_nonneg hc1 hc2) h2
  linarith

theorem haversineA_le_one (lon1 lat1 lon2 lat2 : ℝ)
    (h1l : -90 ≤ lat1) (h1u : lat1 ≤ 90) (h2l : -90 ≤ lat2) (h2u : lat2 ≤ 90) :
    haversineA lon1 lat1 lon2 lat2 ≤ 1 := by
  have hc1 := cos_radiansOf_nonneg lat1 h1l h1u
  have hc2 := cos_radiansOf_nonneg lat2 h2l h2u
  unfold haversineA
  have e1 := Real.sin_sq_eq_half_sub ((radiansOf lat2 - radiansOf lat1) / 2)
  rw [show 2 * ((radiansOf lat2 - radiansOf lat1) / 2) = radiansOf lat2 - radiansOf lat1
    by ring] at e1
  have e2 := Real.sin_sq_eq_half_sub ((radiansOf lon2 - radiansOf lon1) / 2)
  rw [show 2 * ((radiansOf lon2 - radiansOf lon1) / 2) = radiansOf lon2 - radiansOf lon1
    by ring] at e2
  rw [e1, e2]
  have hsub := Real.cos_sub (radiansOf lat2) (radiansOf lat1)
  have hadd := Real.cos_add (radiansOf lat1) (radiansOf lat2)
  have hle := Real.cos_le_one (radiansOf lat1 + radiansOf lat2)
  have hnegone := Real.neg_one_le_cos (radiansOf lon2 - radiansOf lon1)
  have hprod : 0 ≤ Real.cos (radiansOf lat1) * Real.cos (radiansOf lat2) *
      (1 + Real.cos (radiansOf lon2 - radiansOf lon1)) := by
    apply mul_nonneg (mul_nonneg hc1 hc2)
    linarith
  nlinarith [hsub, hadd, hle, hprod]

/-! ### Totality and transitivity of the orderings used by the source -/

theorem keyLE_total (a b : Item) :
    decide (keyPrice a ≤ keyPrice b) = true ∨ decide (keyPrice b ≤ keyPrice a) = true :=
  (le_total (keyPrice a) (keyPrice b)).imp decide_eq_true decide_eq_true

theorem keyLE_trans (a b c : Item)
    (h1 : decide (keyPrice a ≤ keyPrice b) = true)
    (h2 : decide (keyPrice b ≤ keyPrice c) = true) :
    decide (keyPrice a ≤ keyPrice c) = true :=
  decide_eq_true (le_trans (of_decide_eq_true h1) (of_decide_eq_true h2))

theorem resLE_total (a b : SearchResult) : resLE a b = true ∨ resLE b a = true := by
  unfold resLE
  rcases lt_trichotomy a.distance_km b.distance_km with h | h | h
  · exact Or.inl (decide_eq_true (Or.inl h))
  · rcases le_total a.price b.price with hp | hp
    · exact Or.inl (decide_eq_true (Or.inr ⟨h, hp⟩))
    · exact Or.inr (decide_eq_true (Or.inr ⟨h.symm, hp⟩))
  · exact Or.inr (decide_eq_true (Or.inl h))

theorem resLE_trans (a b c : SearchResult)
    (h1 : resLE a b = true) (h2 : resLE b c = true) : resLE a c = true := by
  unfold resLE at h1 h2 ⊢
  rw [decide_eq_true_eq] at h1 h2 ⊢
  rcases h1 with h1 | ⟨h1e, h1p⟩ <;> rcases h2 with h2 | ⟨h2e, h2p⟩
  · exact Or.inl (h1.trans h2)
  · exact Or.inl (h2e ▸ h1)
  · exact Or.inl (h1e ▸ h2)
  · exact Or.inr ⟨h1e.trans h2e, h1p.trans h2p⟩

/-! ### Concrete fixtures used by the claim theorems and witnesses -/

/-- A distance function returning a constant 0 km. -/
def distZero : ℚ → ℚ → ℚ → ℚ → ℚ := fun _ _ _ _ => 0

/-- A distance function returning a constant 0.015 km. -/
def dist15 : ℚ → ℚ → ℚ → ℚ → ℚ := fun _ _ _ _ => 3/200

def qMilk : String := "milk"

def qPlus : String := "a+b"

def nameA : String := "A"

def addrA : String := "addr"

def sidA : String := "s1"

/-- An in-stock inventory entry titled "milk". -/
def itemMilk : Item := { product_title := some qMilk, quantity := some 1, price := some 2 }

/-- An in-stock inventory entry titled "a+b". -/
def itemPlus : Item := { product_title := some qPlus, quantity := some 1, price := some 1 }

/-- An in-stock entry titled "milk" with no price field. -/
def itemNoPrice : Item := { product_title := some qMilk, quantity := some 1, price := none }

/-- A store whose document has no location/coordinates key. -/
def storeNoLoc : Store :=
  { sid := sidA, name := nameA, address := addrA,
    coords := CoordsField.missing, inventory := [itemMilk] }

/-- A store whose stored coordinate array has two non-numeric components. -/
def storeBadLoc : Store :=
  { sid := sidA, name := nameA, address := addrA,
    coords := CoordsField.list [none, none], inventory := [itemMilk] }

/-- A well-located store stocking "milk". -/
def storeMilk : Store :=
  { sid := sidA, name := nameA, address := addrA,
    coords := CoordsField.list [some 0, some 0], inventory := [itemMilk] }

/-- A well-located store stocking "a+b". -/
def storePlus : Store :=
  { sid := sidA, name := nameA, address := addrA,
    coords := CoordsField.list [some 0, some 0], inventory := [itemPlus] }

/-- A well-located store whose only entry has no price field. -/
def storeNoPrice : Store :=
  { sid := sidA, name := nameA, address := addrA,
    coords := CoordsField.list [some 0, some 0], inventory := [itemNoPrice] }

/-- The row emitted for `storePlus` by the in-memory-only pipeline with
the constant-0 distance function. -/
def wrPlus : SearchResult :=
  { store_id := sidA, store_name := nameA, address := addrA,
    distance_km := round2 0, product_title := some qPlus, price := 1, quantity := 1 }

/-- The row emitted for `storeMilk` under `distZero`. -/
def wrMilk : SearchResult :=
  { store_id := sidA, store_name := nameA, address := addrA,
    distance_km := round2 0, product_title := some qMilk, price := 2, quantity := 1 }

/-- The row emitted for `storeNoPrice` under `distZero`. -/
def wrNoPrice : SearchResult :=
  { store_id := sidA, store_name := nameA, address := addrA,
    distance_km := round2 0, product_title := some qMilk, price := 0, quantity := 1 }

theorem processStore_emit (dist : ℚ → ℚ → ℚ → ℚ → ℚ) (q : String)
    (lat lng radius : ℚ) (s : Store) (slng slat : ℚ) (best : Item)
    (hc : getCoords s = some [some slng, some slat])
    (hle : dist lng lat slng slat ≤ radius)
    (hbest : bestOffer (matchesFor q s.inventory) = some best) :
    processStore dist q lat lng radius s =
      Except.ok (some
        { store_id := s.sid, store_name := s.name, address := s.address,
          distance_km := round2 (dist lng lat slng slat),
          product_title := best.product_title,
          price := best.price.getD 0,
          quantity := best.quantity.getD 0 }) := by
  unfold processStore
  rw [hc]
  show (if dist lng lat slng slat ≤ radius then _ else _) = _
  rw [if_pos hle, hbest]

theorem round2_three_two_hundredths : round2 (3/200) = 1/50 := by
  unfold round2 roundHalfEven
  rw [show (3:ℚ)/200 * 100 = 3/2 by norm_num]
  rw [show ⌊(3:ℚ)/2⌋ = 1 from by
    rw [Int.floor_eq_iff]
    norm_num]
  rw [if_neg (by norm_num), if_neg (by norm_num),
    if_neg (by norm_num : ¬((1:Int) % 2 = 0))]
  norm_num

/-! ### The claims -/

/-- C1: the spec states that a store whose recorded coordinates are absent
or malformed (not exactly two numeric components) is skipped silently.
The code instead substitutes the default `[None, None]` for an absent
coordinates key (and stores a non-numeric pair unchanged), which passes
the length-2 guard and then raises a TypeError inside `haversine`
(`radians(None)`), aborting the whole search.  For every distance
function and query position, searching one matching store with an absent
(or two-component non-numeric) coordinates field aborts with a TypeError
instead of skipping the store. -/
theorem c1_malformed_coords_abort (dist : ℚ → ℚ → ℚ → ℚ → ℚ) (lat lng radius : ℚ) :
    search_product dist qMilk lat lng radius [storeNoLoc] =
      Except.error SearchError.typeError ∧
    search_product dist qMilk lat lng radius [storeBadLoc] =
      Except.error SearchError.typeError :=
  ⟨rfl, rfl⟩

/-- C2: for coordinates whose latitudes are valid decimal degrees, the
argument `sqrt(a)` passed to `asin` lies within asin's domain `[-1, 1]`:
in the exact-real semantics the haversine formula structurally confines
`a` to `[0, 1]`. -/
theorem c2_asin_domain (lon1 lat1 lon2 lat2 : ℝ)
    (h1l : -90 ≤ lat1) (h1u : lat1 ≤ 90) (h2l : -90 ≤ lat2) (h2u : lat2 ≤ 90) :
    -1 ≤ Real.sqrt (haversineA lon1 lat1 lon2 lat2) ∧
      Real.sqrt (haversineA lon1 lat1 lon2 lat2) ≤ 1 := by
  constructor
  · linarith [Real.sqrt_nonneg (haversineA lon1 lat1 lon2 lat2)]
  · exact Real.sqrt_le_one.mpr (haversineA_le_one lon1 lat1 lon2 lat2 h1l h1u h2l h2u)

theorem c2_asin_domain_witness :
    -1 ≤ Real.sqrt (haversineA 0 0 10 45) ∧ Real.sqrt (haversineA 0 0 10 45) ≤ 1 :=
  c2_asin_domain 0 0 10 45 (by norm_num) (by norm_num) (by norm_num) (by norm_num)

/-- C8: the haversine distance is symmetric in its two coordinate pairs
and zero on identical coordinates. -/
theorem c8_distance_symm_zero :
    (∀ lon1 lat1 lon2 lat2 : ℝ,
      haversine lon1 lat1 lon2 lat2 = haversine lon2 lat2 lon1 lat1) ∧
    (∀ lon lat : ℝ, haversine lon lat lon lat = 0) := by
  constructor
  · intro lon1 lat1 lon2 lat2
    unfold haversine
    rw [haversineA_symm]
  · intro lon lat
    unfold haversine
    rw [haversineA_self, Real.sqrt_zero, Real.arcsin_zero]
    ring

/-- C4: for a store with two numeric coordinate components and at least
one matched inventory entry, a result row is emitted if and only if the
computed (unrounded) distance is less than or equal to the radius; in
particular a store at exactly the radius is included and any strictly
larger distance (such as radius + 0.01) is excluded. -/
theorem c4_radius_filter (dist : ℚ → ℚ → ℚ → ℚ → ℚ) (q : String)
    (lat lng radius slng slat : ℚ) (s : Store)
    (hc : getCoords s = some [some slng, some slat])
    (hm : matchesFor q s.inventory ≠ []) :
    (∃ r, processStore dist q lat lng radius s = Except.ok (some r)) ↔
      dist lng lat slng slat ≤ radius := by
  constructor
  · rintro ⟨r, hr⟩
    obtain ⟨a, b, best, hc', hle, -, -⟩ := processStore_ok_some dist q lat lng radius s r hr
    rw [hc] at hc'
    have h1 := Option.some.inj hc'
    rw [List.cons.injEq, List.cons.injEq] at h1
    obtain ⟨ha, hb, -⟩ := h1
    rw [Option.some.inj ha, Option.some.inj hb]
    exact hle
  · intro hle
    cases hb : bestOffer (matchesFor q s.inventory) with
    | none => exact absurd ((bestOffer_eq_none_iff _).mp hb) hm
    | some best =>
      exact ⟨_, processStore_emit dist q lat lng radius s slng slat best hc hle hb⟩

theorem c4_radius_filter_witness :
    (∃ r, processStore distZero qMilk 0 0 50 storeMilk = Except.ok (some r)) ↔
      distZero 0 0 0 0 ≤ 50 :=
  c4_radius_filter distZero qMilk 0 0 50 0 0 storeMilk rfl (by decide)

/-- C5: best-offer selection returns the first entry of minimum unit
price among the matches: it coincides with `find?` of the is-minimum
predicate (the first minimum in original inventory order, no secondary
field read), and returns `none` exactly when there are no matches. -/
theorem c5_best_offer_first_min :
    (∀ its : List Item, bestOffer its =
      its.find? (fun x => its.all (fun y => decide (keyPrice x ≤ keyPrice y)))) ∧
    (∀ its : List Item, bestOffer its = none ↔ its = []) := by
  constructor
  · intro its
    unfold bestOffer
    exact head?_sortedBy_min _ keyLE_total keyLE_trans its
  · exact bestOffer_eq_none_iff

/-- C6: the inventory matcher is exactly the in-order filter by
"lower-cased query is a substring of the lower-cased title AND quantity
is positive"; with the empty query every in-stock entry matches. -/
theorem c6_matcher_characterisation :
    (∀ (q : String) (inv : List Item), (matchesFor q inv).Sublist inv) ∧
    (∀ (q : String) (it : Item), memMatch q it = true ↔
      (lowerChars q <:+: lowerChars (it.product_title.getD emptyStr) ∧
        0 < it.quantity.getD 0)) ∧
    (∀ it : Item, memMatch emptyStr it = true ↔ 0 < it.quantity.getD 0) := by
  refine ⟨?_, ?_, ?_⟩
  · intro q inv
    exact List.filter_sublist inv
  · intro q it
    unfold memMatch
    rw [Bool.and_eq_true, containsSub_iff, decide_eq_true_eq]
  · intro it
    unfold memMatch
    rw [Bool.and_eq_true, decide_eq_true_eq]
    constructor
    · exact fun h => h.2
    · intro h
      refine ⟨?_, h⟩
      rw [show lowerChars emptyStr = [] from rfl]
      cases lowerChars (it.product_title.getD emptyStr) <;> rfl

/-- C7: a successful search returns the scanned rows sorted ascending by
the lexicographic key (distance_km, price): the output is pairwise
ordered by that key, is a permutation of the scanned rows, and any two
rows already in the ≤ relation keep their scan encounter order
(stability), so at equal distance the cheaper row comes first and a
nearer row precedes a farther cheaper one. -/
theorem c7_result_ordering (dist : ℚ → ℚ → ℚ → ℚ → ℚ) (q : String)
    (lat lng radius : ℚ) (stores : List Store) (rs : List SearchResult)
    (h : search_product dist q lat lng radius stores = Except.ok rs) :
    rs.Pairwise (fun a b => a.distance_km < b.distance_km ∨
      (a.distance_km = b.distance_km ∧ a.price ≤ b.price)) ∧
    ∃ pre, scanStores dist q lat lng radius (stores.filter (dbStoreMatch q)) =
        Except.ok pre ∧
      List.Perm rs pre ∧
      ∀ a b : SearchResult, [a, b].Sublist pre → resLE a b = true →
        [a, b].Sublist rs := by
  unfold search_product at h
  cases hscan : scanStores dist q lat lng radius (stores.filter (dbStoreMatch q)) with
  | error e =>
    rw [hscan] at h
    exact absurd h (by simp)
  | ok pre =>
    rw [hscan] at h
    have hrs : rs = sortedBy resLE pre := (Except.ok.inj h).symm
    subst hrs
    refine ⟨?_, pre, rfl, perm_sortedBy resLE pre, ?_⟩
    · refine (pairwise_sortedBy resLE resLE_total resLE_trans pre).imp ?_
      intro a b hab
      exact of_decide_eq_true hab
    · intro a b hab hle
      exact pair_sublist_sortedBy resLE hab hle

/-- C9: an inventory entry without a price field is keyed at 0 by
best-offer selection (hence weakly cheapest whenever all keys are
nonnegative), and an emitted row reports `best.get("price", 0)`, which
is 0 when the selected entry has no price. -/
theorem c9_missing_price_zero :
    (∀ it : Item, it.price = none → keyPrice it = 0) ∧
    (∀ it : Item, it.price = none →
      ∀ y : Item, 0 ≤ keyPrice y → keyPrice it ≤ keyPrice y) ∧
    (∀ (dist : ℚ → ℚ → ℚ → ℚ → ℚ) (q : String) (lat lng radius : ℚ)
      (s : Store) (r : SearchResult),
      processStore dist q lat lng radius s = Except.ok (some r) →
      ∃ best, bestOffer (matchesFor q s.inventory) = some best ∧
        r.price = best.price.getD 0 ∧ (best.price = none → r.price = 0)) := by
  refine ⟨?_, ?_, ?_⟩
  · intro it h
    unfold keyPrice
    rw [h]
    rfl
  · intro it h y hy
    unfold keyPrice
    rw [h]
    exact hy
  · intro dist q lat lng radius s r h
    obtain ⟨slng, slat, best, -, -, hbest, hr⟩ :=
      processStore_ok_some dist q lat lng radius s r h
    refine ⟨best, hbest, ?_, ?_⟩
    · rw [hr]
    · intro hnone
      rw [hr, hnone]
      rfl

theorem c9_missing_price_zero_witness :
    keyPrice itemNoPrice = 0 ∧
    ∃ best, bestOffer (matchesFor qMilk storeNoPrice.inventory) = some best ∧
      wrNoPrice.price = best.price.getD 0 ∧ (best.price = none → wrNoPrice.price = 0) :=
  ⟨c9_missing_price_zero.1 itemNoPrice rfl,
   c9_missing_price_zero.2.2 distZero qMilk 0 0 50 storeNoPrice wrNoPrice
     (processStore_emit distZero qMilk 0 0 50 storeNoPrice 0 0 itemNoPrice rfl
       (by decide) rfl :
       processStore distZero qMilk 0 0 50 storeNoPrice = Except.ok (some wrNoPrice))⟩

/-- C10: every emitted row passed the radius filter on the unrounded
distance; the reported distance_km equals the rounding (2 decimals,
ties-to-even) of that distance applied after the filter, so it is at
most radius + 0.005; and the excess is attained: with radius 0.015 km
and a store at exactly 0.015 km the reported distance is 0.02 km,
exceeding the radius by exactly 0.005. -/
theorem c10_rounding_after_filter :
    (∀ (dist : ℚ → ℚ → ℚ → ℚ → ℚ) (q : String) (lat lng radius : ℚ)
      (s : Store) (r : SearchResult),
      processStore dist q lat lng radius s = Except.ok (some r) →
      ∃ slng slat, getCoords s = some [some slng, some slat] ∧
        dist lng lat slng slat ≤ radius ∧
        r.distance_km = round2 (dist lng lat slng slat) ∧
        r.distance_km ≤ radius + 1/200) ∧
    (∃ r, processStore dist15 qMilk 0 0 (3/200) storeMilk = Except.ok (some r) ∧
      r.distance_km = 3/200 + 1/200) := by
  constructor
  · intro dist q lat lng radius s r h
    obtain ⟨slng, slat, best, hc, hle, -, hr⟩ :=
      processStore_ok_some dist q lat lng radius s r h
    refine ⟨slng, slat, hc, hle, ?_, ?_⟩
    · rw [hr]
    · rw [hr]
      have := round2_le (dist lng lat slng slat)
      calc round2 (dist lng lat slng slat) ≤ dist lng lat slng slat + 1/200 := this
        _ ≤ radius + 1/200 := by linarith
  · refine ⟨_, processStore_emit dist15 qMilk 0 0 (3/200) storeMilk 0 0 itemMilk rfl
      (le_of_eq rfl) rfl, ?_⟩
    show round2 (dist15 0 0 0 0) = 3/200 + 1/200
    rw [show dist15 0 0 0 0 = 3/200 from rfl, round2_three_two_hundredths]
    norm_num

theorem c10_rounding_after_filter_witness :
    ∃ slng slat, getCoords storeMilk = some [some slng, some slat] ∧
      distZero 0 0 slng slat ≤ 50 ∧
      wrMilk.distance_km = round2 (distZero 0 0 slng slat) ∧
      wrMilk.distance_km ≤ 50 + 1/200 :=
  c10_rounding_after_filter.1 distZero qMilk 0 0 50 storeMilk wrMilk
    (processStore_emit distZero qMilk 0 0 50 storeMilk 0 0 itemMilk rfl (by decide) rfl :
      processStore distZero qMilk 0 0 50 storeMilk = Except.ok (some wrMilk))

/-- C3 counterexample: with the query "a+b" the database `$regex`
pre-filter applies regex semantics (`a+` means one-or-more `a`), not
substring semantics, so it drops a store whose inventory the
authoritative in-memory substring check matches: the composed search
returns no rows while the in-memory-only pipeline returns the store's
row, refuting the claimed equivalence of the two-layer search with the
in-memory check alone. -/
theorem c3_prefilter_counterexample :
    search_product distZero qPlus 0 0 50 [storePlus] = Except.ok [] ∧
    searchNoPrefilter distZero qPlus 0 0 50 [storePlus] = Except.ok [wrPlus] := by
  constructor
  · rfl
  · have hemit : processStore distZero qPlus 0 0 50 storePlus =
        Except.ok (some wrPlus) :=
      processStore_emit distZero qPlus 0 0 50 storePlus 0 0 itemPlus rfl (by decide) rfl
    unfold searchNoPrefilter
    simp only [scanStores]
    rw [hemit]
    rfl

/-- C3 amended: for every query whose lowercased character sequence is
nonempty and contains no regex metacharacter, the database pre-filter
admits every inventory entry the in-memory check admits, and over any
store collection whose stores all carry exactly two numeric coordinate
components the composed two-layer search returns exactly the result of
the authoritative in-memory check alone. -/
theorem c3_prefilter_amended (dist : ℚ → ℚ → ℚ → ℚ → ℚ) (q : String)
    (lat lng radius : ℚ) (stores : List Store)
    (hq : lowerChars q ≠ [])
    (hsafe : (lowerChars q).all notSpecial = true)
    (hw : ∀ s ∈ stores, isWellLocated s = true) :
    (∀ it : Item, memMatch q it = true → dbItemMatch q it = true) ∧
    search_product dist q lat lng radius stores =
      searchNoPrefilter dist q lat lng radius stores := by
  refine ⟨fun it h => memMatch_imp_dbItemMatch q it hq hsafe h, ?_⟩
  unfold search_product searchNoPrefilter
  rw [scanStores_filter dist q lat lng radius stores hw hq hsafe]

theorem c3_prefilter_amended_witness :
    (∀ it : Item, memMatch qMilk it = true → dbItemMatch qMilk it = true) ∧
    search_product distZero qMilk 0 0 50 [storeMilk] =
      searchNoPrefilter distZero qMilk 0 0 50 [storeMilk] :=
  c3_prefilter_amended distZero qMilk 0 0 50 [storeMilk] (by decide) (by decide)
    (by decide)

/-- A full concrete search run over one well-located store, used to
instantiate the ordering theorem. -/
theorem search_single_store_milk :
    search_product distZero qMilk 0 0 50 [storeMilk] = Except.ok [wrMilk] := by
  have hemit : processStore distZero qMilk 0 0 50 storeMilk =
      Except.ok (some wrMilk) :=
    processStore_emit distZero qMilk 0 0 50 storeMilk 0 0 itemMilk rfl (by decide) rfl
  unfold search_product
  rw [show ([storeMilk].filter (dbStoreMatch qMilk)) = [storeMilk] from rfl]
  simp only [scanStores]
  rw [hemit]
  rfl

theorem c7_result_ordering_witness :
    ([wrMilk] : List SearchResult).Pairwise (fun a b => a.distance_km < b.distance_km ∨
      (a.distance_km = b.distance_km ∧ a.price ≤ b.price)) ∧
    ∃ pre, scanStores distZero qMilk 0 0 50 ([storeMilk].filter (dbStoreMatch qMilk)) =
        Except.ok pre ∧
      List.Perm [wrMilk] pre ∧
      ∀ a b : SearchResult, [a, b].Sublist pre → resLE a b = true →
        [a, b].Sublist [wrMilk] :=
  c7_result_ordering distZero qMilk 0 0 50 [storeMilk] [wrMilk] search_single_store_milk
